import Mathlib

/-!
Verification of the KAIKU Geo-Aggregation & Ephemeral Lifecycle Engine.

This file gives a shallow embedding, in Lean, of the core logic of the
repository (src/services/storageService.ts, src/services/geminiService.ts,
src/unnamed/part_012, src/unnamed/part_013, src/App.tsx) and proves or
refutes the specified properties against it.  JavaScript numbers are
modelled as exact rationals (`ℚ`) for coordinates and as integers (`ℤ`) for
timestamps and scores; `Math.random()` draws are passed as explicit inputs;
`localStorage` and the Supabase backend are modelled by explicit state
values and lists passed to the functions that read them.
-/

namespace Kaiku

/-- Constant from src/constants.ts: `MESSAGE_LIFESPAN_MS = 48 * 60 * 60 * 1000`. -/
def MESSAGE_LIFESPAN_MS : ℤ := 48 * 60 * 60 * 1000

/-- Constant from src/constants.ts: `SCORE_THRESHOLD_HIDE = -5`. -/
def SCORE_THRESHOLD_HIDE : ℤ := -5

/-- Constant from src/constants.ts: `SPAM_RATE_LIMIT_MS = 4000`. -/
def SPAM_RATE_LIMIT_MS : ℤ := 4000

/-- Constant from src/constants.ts: `RATE_LIMIT_WINDOW_MS = 60 * 60 * 1000`. -/
def RATE_LIMIT_WINDOW_MS : ℤ := 60 * 60 * 1000

/-- Constant from src/constants.ts: `MAX_POSTS_PER_WINDOW = 10`. -/
def MAX_POSTS_PER_WINDOW : ℕ := 10

/-- Constant from src/constants.ts: `BANNED_WORDS`. -/
def BANNED_WORDS : List String := ["spam", "scam", "buy", "sell", "crypto", "nft"]

/-- A coordinate pair, the `location` field of `ChatMessage` in src/types.ts.
JavaScript floating-point coordinates are modelled as exact rationals. -/
structure Location where
  lat : ℚ
  lng : ℚ
deriving DecidableEq, Repr

/-- The `ChatMessage` entity of src/types.ts.  Optional JS fields that default
to a neutral value under `||`-coercion (`replyCount`, `isRemote`) are stored
with that neutral default; `parentId` and `originCountry` keep their
optionality. -/
structure ChatMessage where
  id : String
  text : String
  timestamp : ℤ
  location : Location
  city : String
  sessionId : String
  score : ℤ
  parentId : Option String
  replyCount : ℤ
  isRemote : Bool
  originCountry : Option String
deriving DecidableEq, Repr

/-- The `RateLimitStatus` record of src/types.ts. -/
structure RateLimitStatus where
  isLimited : Bool
  cooldownUntil : Option ℤ
deriving DecidableEq, Repr

/-- Prefix test on character lists, the building block of the substring test
below. -/
def isPrefOf : List Char → List Char → Bool
  | [], _ => true
  | _ :: _, [] => false
  | c :: cs, d :: ds => (c == d) && isPrefOf cs ds

/-- Substring test on character lists: `w` occurs in `s` when it is a prefix
of some suffix of `s`.  This models JS `String.prototype.includes`. -/
def containsSub (w : List Char) : List Char → Bool
  | [] => isPrefOf w []
  | c :: cs => isPrefOf w (c :: cs) || containsSub w cs

/-- From src/services/moderationService.ts, `moderateContent`: lower-cases the
text (`text.toLowerCase()`, modelled per character) and rejects it (returns
`false`) when it contains (`includes`) any banned word. -/
def moderateContent (text : String) : Bool :=
  BANNED_WORDS.all (fun w => !(containsSub w.data (text.data.map Char.toLower)))

/-- From src/services/storageService.ts lines 129-138, `applyFuzzyLogic`:
adds `(Math.random() - 0.5) * 0.025` to each coordinate.  The two
`Math.random()` draws (each in `[0, 1)`) are passed explicitly as `r1`, `r2`;
`JITTER = 0.025 = 1/40`. -/
def applyFuzzyLogic (lat lng r1 r2 : ℚ) : Location :=
  ⟨lat + (r1 - 1/2) * (1/40), lng + (r2 - 1/2) * (1/40)⟩

/-- The `localStorage` state that `saveMessage` reads and writes: the value
under `kaiku_last_post_ts` (the last allowed submission's timestamp). -/
structure SaveState where
  lastPostTs : Option ℤ
deriving DecidableEq, Repr

/-- The spam-cooldown test at the top of `saveMessage`
(src/services/storageService.ts lines 218-225): with a stored last-post
timestamp `t`, the submission is rejected when `now - t < SPAM_RATE_LIMIT_MS`. -/
def spamCooldownRejects (st : SaveState) (now : ℤ) : Bool :=
  match st.lastPostTs with
  | some lastPostTime => now - lastPostTime < SPAM_RATE_LIMIT_MS
  | none => false

/-- From src/services/storageService.ts lines 216-280, `saveMessage`.
Impure inputs are made explicit: `now` is `Date.now()`, `uuid` the value of
`generateUUID()`, `userId` the value of `getAnonymousID()`, `city` and
`countryCode` the result of the `getCityName` geocoding call.  Returns the
result (the thrown error message, or the constructed `ChatMessage`, which is
exactly the record persisted to localStorage and sent to Supabase) together
with the updated `SaveState`; the `kaiku_last_post_ts` write happens only on
the non-throwing path, after the inserts.  Note the message's `location` is
built directly from the raw `lat`, `lng` arguments. -/
def saveMessage (st : SaveState) (now : ℤ) (text : String) (lat lng : ℚ)
    (parentId : Option String) (isRemote : Bool)
    (uuid userId city : String) (countryCode : Option String) :
    Except String ChatMessage × SaveState :=
  if spamCooldownRejects st now then
    (.error "You are sending messages too fast. Please wait a moment.", st)
  else if !moderateContent text then
    (.error "Message blocked by automated moderation.", st)
  else
    (.ok { id := uuid, text := text, timestamp := now,
           location := ⟨lat, lng⟩, city := city, sessionId := userId,
           score := 0, parentId := parentId, replyCount := 0,
           isRemote := isRemote, originCountry := countryCode },
     ⟨some now⟩)

/-- The message-visibility predicate used identically by the
`getLocalMessages` filter (src/services/storageService.ts lines 149-150) and
by the prune interval in src/App.tsx lines 86-91:
`m.timestamp > now - MESSAGE_LIFESPAN_MS && m.score > SCORE_THRESHOLD_HIDE`. -/
def isVisible (now createdAt score : ℤ) : Bool :=
  decide (createdAt > now - MESSAGE_LIFESPAN_MS) && decide (score > SCORE_THRESHOLD_HIDE)

/-- Vote direction, the `'up' | 'down'` union of the TypeScript sources. -/
inductive VoteDirection where
  | up
  | down
deriving DecidableEq, Repr

/-- From src/services/storageService.ts lines 324-351 (and identically
src/unnamed/part_013 lines 245-272), `castVote`: the pure vote-toggle core.
`previousVote` is `userVotes[msgId]` (`none` when absent); the result is the
new stored vote (`none` models `delete userVotes[msgId]`) paired with
`scoreDelta`. -/
def castVote (previousVote : Option VoteDirection) (direction : VoteDirection) :
    Option VoteDirection × ℤ :=
  if previousVote = some direction then
    (none, if direction = .up then -1 else 1)
  else if previousVote.isSome then
    (some direction, if direction = .up then 2 else -2)
  else
    (some direction, if direction = .up then 1 else -1)

/-- From src/services/storageService.ts lines 353-380 (and identically
src/unnamed/part_013 lines 274-301), `getRateLimitStatus`.  `posts` is the
sequence of `created_at` timestamps of this session's rows in the order the
backend returns them; the query's `gt('created_at', cutoffTime)` filter is
the list filter below.  `lastPostTime` is `data[data.length-1]`, the LAST
returned row (0 when there is none), and on quota exhaustion the code
returns `cooldownUntil = lastPostTime + RATE_LIMIT_WINDOW_MS`. -/
def getRateLimitStatus (posts : List ℤ) (now : ℤ) : RateLimitStatus :=
  let rows := posts.filter (fun ts => decide (ts > now - RATE_LIMIT_WINDOW_MS))
  let recentPostsCount := rows.length
  let lastPostTime := rows.getLastD 0
  if MAX_POSTS_PER_WINDOW ≤ recentPostsCount then
    ⟨true, some (lastPostTime + RATE_LIMIT_WINDOW_MS)⟩
  else
    ⟨false, none⟩

/-- From src/services/geminiService.ts lines 89-97, `getH3Resolution`:
zoom-to-H3-resolution step function with the privacy clamp at resolution 8. -/
def getH3Resolution (zoom : ℚ) : ℕ :=
  if zoom > 10 then 8
  else if zoom ≥ 7 then 7
  else 5

/-- The `HexagonData` record of src/services/geminiService.ts lines 80-87. -/
structure HexagonData where
  h3Index : String
  boundary : List (ℚ × ℚ)
  center : ℚ × ℚ
  messages : List ChatMessage
  count : ℕ
  latestTimestamp : ℤ
deriving DecidableEq, Repr

/-- One step of the `messages.forEach` loop of `aggregateMessagesByHexagon`
(src/services/geminiService.ts lines 107-131): look up the bucket for the
message's cell in the insertion-ordered bucket list (a JS `Map` preserves
insertion order); create it if absent (with `count = 0`,
`latestTimestamp = 0`, then immediately push/increment/update), otherwise
push the message, increment `count`, and raise `latestTimestamp` when the
message's timestamp exceeds it. -/
def hexUpsert (bnd : String → List (ℚ × ℚ)) (ctr : String → ℚ × ℚ)
    (idx : String) (msg : ChatMessage) :
    List HexagonData → List HexagonData
  | [] => [⟨idx, bnd idx, ctr idx, [msg], 1,
           if msg.timestamp > 0 then msg.timestamp else 0⟩]
  | b :: bs =>
    if b.h3Index = idx then
      { b with messages := b.messages ++ [msg], count := b.count + 1,
               latestTimestamp :=
                 if msg.timestamp > b.latestTimestamp then msg.timestamp
                 else b.latestTimestamp } :: bs
    else
      b :: hexUpsert bnd ctr idx msg bs

/-- The `messages.forEach` loop of `aggregateMessagesByHexagon`, written as a
recursion over the remaining messages carrying the bucket accumulator. -/
def hexBucketsAux (cell : ℚ → ℚ → ℕ → String)
    (bnd : String → List (ℚ × ℚ)) (ctr : String → ℚ × ℚ) (resolution : ℕ) :
    List ChatMessage → List HexagonData → List HexagonData
  | [], acc => acc
  | msg :: rest, acc =>
    hexBucketsAux cell bnd ctr resolution rest
      (hexUpsert bnd ctr (cell msg.location.lat msg.location.lng resolution) msg acc)

/-- The bucket list built by the `forEach` loop of
`aggregateMessagesByHexagon`, before sorting.  The external `h3-js` calls
are abstracted as parameters: `cell` is `h3.latLngToCell`, `bnd` is
`h3.cellToBoundary`, `ctr` is `h3.cellToLatLng`. -/
def hexBuckets (cell : ℚ → ℚ → ℕ → String)
    (bnd : String → List (ℚ × ℚ)) (ctr : String → ℚ × ℚ)
    (messages : List ChatMessage) (resolution : ℕ) : List HexagonData :=
  hexBucketsAux cell bnd ctr resolution messages []

/-- Insertion step of the stable sort modelling JS `Array.prototype.sort`
with comparator `(a, b) => b.count - a.count`: an element is placed before
the first element whose count is at most its own, so elements of equal count
keep their original relative order (ECMAScript sort is stable). -/
def jsSortInsert {α : Type} (countOf : α → ℕ) (x : α) : List α → List α
  | [] => [x]
  | y :: ys => if countOf y ≤ countOf x then x :: y :: ys
               else y :: jsSortInsert countOf x ys

/-- Stable sort by descending count, modelling
`Array.from(map.values()).sort((a, b) => b.count - a.count)`. -/
def jsSortByCountDesc {α : Type} (countOf : α → ℕ) : List α → List α
  | [] => []
  | x :: xs => jsSortInsert countOf x (jsSortByCountDesc countOf xs)

/-- From src/services/geminiService.ts lines 107-131,
`aggregateMessagesByHexagon`: bucket every message by its H3 cell at the
given resolution, then sort the buckets by descending count. -/
def aggregateMessagesByHexagon (cell : ℚ → ℚ → ℕ → String)
    (bnd : String → List (ℚ × ℚ)) (ctr : String → ℚ × ℚ)
    (messages : List ChatMessage) (resolution : ℕ) : List HexagonData :=
  jsSortByCountDesc HexagonData.count (hexBuckets cell bnd ctr messages resolution)

/-- JS `Math.round`: rounds half toward positive infinity. -/
def jsRound (q : ℚ) : ℤ := ⌊q + 1/2⌋

/-- `Math.round(x * 100) / 100` — snapping a coordinate to the fixed
0.01-degree grid (`PRECISION = 100` in src/unnamed/part_012). -/
def snapCoord (q : ℚ) : ℚ := (jsRound (q * 100) : ℚ) / 100

/-- The `HubData` record of src/unnamed/part_012.  The source keys buckets by
the string `` `${snappedLat.toFixed(2)}_${snappedLng.toFixed(2)}` ``; since
`toFixed(2)` renders distinct multiples of 0.01 distinctly, the key is
modelled as the snapped coordinate pair itself. -/
structure HubData where
  id : ℚ × ℚ
  name : String
  center : Location
  count : ℕ
  messages : List ChatMessage
  latestTimestamp : ℤ
deriving DecidableEq, Repr

/-- One step of the `messages.forEach` loop of `aggregateMessagesByDistrict`
(src/unnamed/part_012 lines 62-91): create the bucket for the snapped grid
key if absent — its `center` is the snapped location, its `name` is
`msg.city || 'District'`, its `latestTimestamp` starts at 0 — then push the
message and increment `count`.  Note the loop never updates
`latestTimestamp`. -/
def districtUpsert (key : ℚ × ℚ) (msg : ChatMessage) :
    List HubData → List HubData
  | [] => [{ id := key,
             name := if msg.city = "" then "District" else msg.city,
             center := ⟨key.1, key.2⟩, count := 1, messages := [msg],
             latestTimestamp := 0 }]
  | b :: bs =>
    if b.id = key then
      { b with messages := b.messages ++ [msg], count := b.count + 1 } :: bs
    else
      b :: districtUpsert key msg bs

/-- The `messages.forEach` loop of `aggregateMessagesByDistrict`, written as
a recursion over the remaining messages carrying the bucket accumulator. -/
def districtBucketsAux : List ChatMessage → List HubData → List HubData
  | [], acc => acc
  | msg :: rest, acc =>
    districtBucketsAux rest
      (districtUpsert (snapCoord msg.location.lat, snapCoord msg.location.lng) msg acc)

/-- The insertion-ordered bucket list built by the `forEach` loop of
`aggregateMessagesByDistrict`, before sorting. -/
def districtBuckets (messages : List ChatMessage) : List HubData :=
  districtBucketsAux messages []

/-- The running value of a bucket's `latestTimestamp` after the `forEach` loop
has pushed the given messages into it: it starts at 0 and is raised to each
pushed message's timestamp when that timestamp exceeds it. -/
def latestOf (l : List ChatMessage) : ℤ :=
  l.foldl (fun a m => if m.timestamp > a then m.timestamp else a) 0

/-- Per-bucket well-formedness maintained by the hexagon aggregation loop,
relative to the cell-key function `k`. -/
def HexWF (k : ChatMessage → String) (b : HexagonData) : Prop :=
  b.count = b.messages.length ∧ b.messages ≠ [] ∧
  (∀ m ∈ b.messages, k m = b.h3Index) ∧
  b.latestTimestamp = latestOf b.messages

/-- Per-bucket well-formedness maintained by the district aggregation loop:
count matches the member list, members are nonempty and all snap to the
bucket's grid key, the center is the grid key, and `latestTimestamp` keeps
its initial value 0 (the loop never updates it). -/
def DistrictWF (b : HubData) : Prop :=
  b.count = b.messages.length ∧ b.messages ≠ [] ∧
  (∀ m ∈ b.messages, (snapCoord m.location.lat, snapCoord m.location.lng) = b.id) ∧
  b.center = ⟨b.id.1, b.id.2⟩ ∧ b.latestTimestamp = 0

/-- From src/unnamed/part_012 lines 62-91, `aggregateMessagesByDistrict`:
snap every message to the fixed 0.01-degree grid, bucket by the snapped
point, and sort the buckets by descending count. -/
def aggregateMessagesByDistrict (messages : List ChatMessage) : List HubData :=
  jsSortByCountDesc HubData.count (districtBuckets messages)

/-- The `RealtimeEvent` union of src/services/storageService.ts lines
382-385. -/
inductive RealtimeEvent where
  | insert (message : ChatMessage)
  | update (message : ChatMessage)
  | delete (id : String)
deriving DecidableEq, Repr

/-- JS `prev.findIndex(p => p.id === message.id)` followed by
`updated[exists] = { ...updated[exists], ...message }` (src/App.tsx lines
68-73): replace the first entry whose id matches `message.id` with the
merged entry, or report absence.  The realtime payload mapper sets every
`ChatMessage` field explicitly, so the object spread overwrites the whole
stored entry with `message`. -/
def replaceFirstById (message : ChatMessage) :
    List ChatMessage → Option (List ChatMessage)
  | [] => none
  | m :: ms =>
    if m.id = message.id then some (message :: ms)
    else (replaceFirstById message ms).map (m :: ·)

/-- The `setMessages` updater of the `subscribeToMessages` handler in
src/App.tsx lines 53-78: a Delete filters by id; an Insert/Update carrying a
`parentId` only bumps the parent's reply count (and is dropped entirely when
it is the local actor's own echo); a top-level Insert/Update replaces the
existing entry with the same id in place when one exists and prepends the
message otherwise. -/
def mergeRealtimeEvent (selfId : String) (prev : List ChatMessage)
    (ev : RealtimeEvent) : List ChatMessage :=
  match ev with
  | .delete id => prev.filter (fun m => m.id ≠ id)
  | .insert message | .update message =>
    match message.parentId with
    | some pid =>
      if message.sessionId = selfId then prev
      else prev.map (fun m =>
        if m.id = pid then { m with replyCount := m.replyCount + 1 } else m)
    | none =>
      match replaceFirstById message prev with
      | some updated => updated
      | none => message :: prev

/-- The optimistic local insert performed by `handleSave` in src/App.tsx line
172: `setMessages(prev => [newMsg, ...prev])`. -/
def optimisticInsert (newMsg : ChatMessage) (prev : List ChatMessage) :
    List ChatMessage :=
  newMsg :: prev

/-- Concrete top-level message at the grid point (0, 0), used to evaluate the
embedded operations on explicit inputs. -/
def wMsgA : ChatMessage :=
  { id := "a", text := "hi", timestamp := 1, location := ⟨0, 0⟩,
    city := "Porvoo", sessionId := "s1", score := 0, parentId := none,
    replyCount := 0, isRemote := false, originCountry := none }

/-- Concrete top-level message at the grid point (1, 1). -/
def wMsgB : ChatMessage :=
  { id := "b", text := "yo", timestamp := 2, location := ⟨1, 1⟩,
    city := "Helsinki", sessionId := "s2", score := 0, parentId := none,
    replyCount := 0, isRemote := false, originCountry := none }

/-- Concrete message record produced by an accepted `saveMessage` call at raw
coordinates (3, 4). -/
def wSaved : ChatMessage :=
  { id := "u", text := "good", timestamp := 5, location := ⟨3, 4⟩,
    city := "c", sessionId := "s", score := 0, parentId := none,
    replyCount := 0, isRemote := false, originCountry := none }

/-- Ten submission timestamps (milliseconds), in ascending backend order, all
inside one rate-limit window relative to `now = 10000`. -/
def postsW : List ℤ :=
  [0, 1000, 2000, 3000, 4000, 5000, 6000, 7000, 8000, 9000]

/-- The single hexagon cluster produced by aggregating `[wMsgB]` under the
constant cell function `fun _ _ _ => "cell"` with empty boundary and center
(0, 0). -/
def wHex : HexagonData :=
  { h3Index := "cell", boundary := [], center := (0, 0),
    messages := [wMsgB], count := 1, latestTimestamp := 2 }

/-- The single district cluster produced by aggregating `[wMsgA]`. -/
def wHub : HubData :=
  { id := (0, 0), name := "Porvoo", center := ⟨0, 0⟩, count := 1,
    messages := [wMsgA], latestTimestamp := 0 }

/-- Claim C2: visibility of a message is the pure function of
(now, createdAt, score) given by `now - createdAt < MESSAGE_LIFESPAN_MS` and
`score > SCORE_THRESHOLD_HIDE`; in particular a message aged one hour is
hidden at score -6 and visible again at score -4. -/
theorem message_visibility_spec :
    ∀ now createdAt score : ℤ,
      (isVisible now createdAt score = true ↔
        (now - createdAt < MESSAGE_LIFESPAN_MS ∧ SCORE_THRESHOLD_HIDE < score)) ∧
      (∀ t0 : ℤ,
        isVisible (t0 + 3600000) t0 (-6) = false ∧
        isVisible (t0 + 3600000) t0 (-4) = true) := by
  intro now createdAt score
  constructor
  · simp only [isVisible, MESSAGE_LIFESPAN_MS, SCORE_THRESHOLD_HIDE,
      Bool.and_eq_true, decide_eq_true_eq]
    omega
  · intro t0
    constructor <;>
      simp only [isVisible, MESSAGE_LIFESPAN_MS, SCORE_THRESHOLD_HIDE,
        Bool.and_eq_true, decide_eq_true_eq, Bool.and_eq_false_iff,
        decide_eq_false_iff_not, not_lt] <;>
      omega

/-- Claim C3: `castVote` realises the idempotent self-inverse toggle table,
and voting the same direction twice starting from no vote returns the record
to none with net score delta 0. -/
theorem castVote_toggle_table :
    castVote none .up = (some .up, 1) ∧
    castVote none .down = (some .down, -1) ∧
    castVote (some .up) .up = (none, -1) ∧
    castVote (some .down) .down = (none, 1) ∧
    castVote (some .up) .down = (some .down, -2) ∧
    castVote (some .down) .up = (some .up, 2) ∧
    ∀ d : VoteDirection,
      (castVote (castVote none d).1 d).1 = none ∧
      (castVote none d).2 + (castVote (castVote none d).1 d).2 = 0 := by
  refine ⟨rfl, rfl, rfl, rfl, rfl, rfl, ?_⟩
  intro d
  cases d <;> exact ⟨rfl, rfl⟩

/-- Claim C8: the zoom-to-resolution mapping is non-decreasing in zoom and is
clamped to the privacy floor, H3 resolution 8, for every zoom. -/
theorem getH3Resolution_monotone_clamped :
    (∀ z1 z2 : ℚ, z1 ≤ z2 → getH3Resolution z1 ≤ getH3Resolution z2) ∧
    (∀ z : ℚ, getH3Resolution z ≤ 8) := by
  constructor
  · intro z1 z2 h
    unfold getH3Resolution
    split_ifs <;> first | omega | (exfalso; linarith)
  · intro z
    unfold getH3Resolution
    split_ifs <;> omega

/-- Witness for C8: the monotonicity and the clamp evaluated at the concrete
zoom levels 3 and 12. -/
theorem getH3Resolution_monotone_clamped_witness :
    getH3Resolution 3 ≤ getH3Resolution 12 ∧ getH3Resolution 12 ≤ 8 :=
  ⟨getH3Resolution_monotone_clamped.1 3 12 (by norm_num),
   getH3Resolution_monotone_clamped.2 12⟩

/-- Claim C5: `saveMessage` records the last-submission timestamp exactly on
allowed submissions; with the last allowed submission at `t`, a submission at
`t + cooldown - 1` is rejected with the rate-limit error and leaves the
recorded timestamp untouched, while a submission at `t + cooldown` or later
is allowed (moderation permitting) and records its own time. -/
theorem saveMessage_cooldown :
    (∀ st now text lat lng pid rem uuid uid city oc msg,
       (saveMessage st now text lat lng pid rem uuid uid city oc).1 = .ok msg →
       (saveMessage st now text lat lng pid rem uuid uid city oc).2 = ⟨some now⟩) ∧
    (∀ st now text lat lng pid rem uuid uid city oc err,
       (saveMessage st now text lat lng pid rem uuid uid city oc).1 = .error err →
       (saveMessage st now text lat lng pid rem uuid uid city oc).2 = st) ∧
    (∀ (t : ℤ) text lat lng pid rem uuid uid city oc,
       moderateContent text = true →
       ((saveMessage ⟨some t⟩ (t + SPAM_RATE_LIMIT_MS - 1) text lat lng pid rem uuid uid city oc).1 =
          .error "You are sending messages too fast. Please wait a moment." ∧
        (saveMessage ⟨some t⟩ (t + SPAM_RATE_LIMIT_MS - 1) text lat lng pid rem uuid uid city oc).2 =
          ⟨some t⟩) ∧
       (∀ now, t + SPAM_RATE_LIMIT_MS ≤ now →
          (saveMessage ⟨some t⟩ now text lat lng pid rem uuid uid city oc).1 =
            .ok { id := uuid, text := text, timestamp := now, location := ⟨lat, lng⟩,
                  city := city, sessionId := uid, score := 0, parentId := pid,
                  replyCount := 0, isRemote := rem, originCountry := oc } ∧
          (saveMessage ⟨some t⟩ now text lat lng pid rem uuid uid city oc).2 =
            ⟨some now⟩)) := by
  refine ⟨?_, ?_, ?_⟩
  · intro st now text lat lng pid rem uuid uid city oc msg h
    unfold saveMessage at h ⊢
    split_ifs at h ⊢ <;> simp_all
  · intro st now text lat lng pid rem uuid uid city oc err h
    unfold saveMessage at h ⊢
    split_ifs at h ⊢ <;> simp_all
  · intro t text lat lng pid rem uuid uid city oc hmod
    have hrej : spamCooldownRejects ⟨some t⟩ (t + SPAM_RATE_LIMIT_MS - 1) = true := by
      simp only [spamCooldownRejects, decide_eq_true_eq]
      omega
    refine ⟨?_, ?_⟩
    · unfold saveMessage
      rw [hrej]
      exact ⟨rfl, rfl⟩
    · intro now hnow
      have hok : spamCooldownRejects ⟨some t⟩ now = false := by
        simp only [spamCooldownRejects, decide_eq_false_iff_not, not_lt]
        omega
      unfold saveMessage
      rw [hok, hmod]
      exact ⟨rfl, rfl⟩

/-- Witness for C5: with a post recorded at time 0 and cooldown 4000 ms, a
post of the clean text "hello" is rejected at 3999 ms without touching the
recorded timestamp and allowed at 4000 ms, recording 4000. -/
theorem saveMessage_cooldown_witness :
    moderateContent "hello" = true ∧
    (saveMessage ⟨some 0⟩ (0 + SPAM_RATE_LIMIT_MS - 1) "hello" 1 2 none false "u" "s" "c" none).1 =
      .error "You are sending messages too fast. Please wait a moment." ∧
    (saveMessage ⟨some 0⟩ (0 + SPAM_RATE_LIMIT_MS - 1) "hello" 1 2 none false "u" "s" "c" none).2 =
      ⟨some 0⟩ ∧
    (saveMessage ⟨some 0⟩ 4000 "hello" 1 2 none false "u" "s" "c" none).1 =
      .ok { id := "u", text := "hello", timestamp := 4000, location := ⟨1, 2⟩,
            city := "c", sessionId := "s", score := 0, parentId := none,
            replyCount := 0, isRemote := false, originCountry := none } ∧
    (saveMessage ⟨some 0⟩ 4000 "hello" 1 2 none false "u" "s" "c" none).2 = ⟨some 4000⟩ := by
  have hmod : moderateContent "hello" = true := by decide
  have h := saveMessage_cooldown.2.2 0 "hello" 1 2 none false "u" "s" "c" none hmod
  have h4 := h.2 4000 (by norm_num [SPAM_RATE_LIMIT_MS])
  exact ⟨hmod, h.1.1, h.1.2, h4.1, h4.2⟩

/-- Counterexample to C1 as stated: an accepted `saveMessage` call persists a
location exactly equal to its raw input coordinates, and `applyFuzzyLogic`
returns its exact input when both random draws are 1/2. -/
theorem saveMessage_raw_location_cex :
    (saveMessage ⟨none⟩ 0 "hello" 60 25 none false "u1" "s1" "Porvoo" none).1 =
      .ok { id := "u1", text := "hello", timestamp := 0, location := ⟨60, 25⟩,
            city := "Porvoo", sessionId := "s1", score := 0, parentId := none,
            replyCount := 0, isRemote := false, originCountry := none } ∧
    applyFuzzyLogic 60 25 (1/2) (1/2) = ⟨60, 25⟩ := by
  constructor
  · have hmod : moderateContent "hello" = true := by decide
    unfold saveMessage
    have hrej : spamCooldownRejects ⟨none⟩ 0 = false := rfl
    rw [hrej, hmod]
    rfl
  · unfold applyFuzzyLogic
    norm_num

/-- Claim C1 as amended: `saveMessage` persists the raw input coordinates
unchanged (the fuzzing function is not applied on the save path), while
`applyFuzzyLogic` itself perturbs each coordinate by `(r - 1/2) * 0.025` — a
fixed magnitude below 0.0125 degrees, independent of any zoom — and returns
its exact input precisely when both random draws equal 1/2. -/
theorem saveMessage_raw_location :
    (∀ st now text lat lng pid rem uuid uid city oc msg st2,
       saveMessage st now text lat lng pid rem uuid uid city oc = (.ok msg, st2) →
       msg.location = ⟨lat, lng⟩) ∧
    (∀ lat lng r1 r2 : ℚ,
       applyFuzzyLogic lat lng r1 r2 =
         ⟨lat + (r1 - 1/2) * (1/40), lng + (r2 - 1/2) * (1/40)⟩ ∧
       (0 ≤ r1 → r1 < 1 → |(applyFuzzyLogic lat lng r1 r2).lat - lat| ≤ 1/80) ∧
       (0 ≤ r2 → r2 < 1 → |(applyFuzzyLogic lat lng r1 r2).lng - lng| ≤ 1/80) ∧
       (applyFuzzyLogic lat lng r1 r2 = ⟨lat, lng⟩ ↔ (r1 = 1/2 ∧ r2 = 1/2))) := by
  constructor
  · intro st now text lat lng pid rem uuid uid city oc msg st2 h
    unfold saveMessage at h
    split_ifs at h <;> simp_all
    rw [← h.1]
  · intro lat lng r1 r2
    refine ⟨rfl, ?_, ?_, ?_⟩
    · intro h0 h1
      simp only [applyFuzzyLogic, add_sub_cancel_left]
      rw [abs_le]
      constructor <;> nlinarith
    · intro h0 h1
      simp only [applyFuzzyLogic, add_sub_cancel_left]
      rw [abs_le]
      constructor <;> nlinarith
    · simp only [applyFuzzyLogic, Location.mk.injEq, add_right_eq_self,
        mul_eq_zero, sub_eq_zero]
      constructor
      · rintro ⟨h1 | h1, h2 | h2⟩ <;> norm_num at h1 h2 ⊢ <;> tauto
      · rintro ⟨h1, h2⟩
        exact ⟨Or.inl h1, Or.inl h2⟩

/-- Witness for the amended C1: a concrete accepted save persists exactly the
raw coordinates (3, 4), and the fuzzing bound holds at the concrete draw
r = 1/4. -/
theorem saveMessage_raw_location_witness :
    wSaved.location = ⟨3, 4⟩ ∧
    |(applyFuzzyLogic 1 2 (1/4) (1/4)).lat - 1| ≤ 1/80 := by
  constructor
  · exact saveMessage_raw_location.1 ⟨none⟩ 5 "good" 3 4 none false "u" "s" "c" none
      wSaved ⟨some 5⟩ (by rfl)
  · exact ((saveMessage_raw_location.2 1 2 (1/4) (1/4)).2.1 (by norm_num) (by norm_num))

/-- In a list sorted by `≤`, with every element at least the default, the
`getLastD` value bounds the default and every element from above. -/
theorem getLastD_is_max (l : List ℤ) :
    ∀ d : ℤ, l.Pairwise (· ≤ ·) → (∀ x ∈ l, d ≤ x) →
      d ≤ l.getLastD d ∧ ∀ x ∈ l, x ≤ l.getLastD d := by
  induction l with
  | nil => intro d _ _; simp
  | cons a t ih =>
    intro d hp hd
    rw [List.getLastD_cons]
    have hpa := List.pairwise_cons.mp hp
    have hrec := ih a hpa.2 hpa.1
    refine ⟨le_trans (hd a (by simp)) hrec.1, ?_⟩
    intro x hx
    rcases List.mem_cons.mp hx with h | h
    · exact h ▸ hrec.1
    · exact hrec.2 x h

/-- Counterexample to C6 as stated: with ten submissions at 0..9000 ms (in
ascending backend order) and the window exhausted at `now = 10000`, the code
reports `cooldownUntil = 9000 + window = 3609000`, not
`windowStart + window = 0 + 3600000`, although the earliest submission
counted in the window is 0. -/
theorem getRateLimitStatus_quota_cex :
    (getRateLimitStatus postsW 10000).isLimited = true ∧
    (getRateLimitStatus postsW 10000).cooldownUntil = some 3609000 ∧
    postsW.filter (fun ts => decide (ts > 10000 - RATE_LIMIT_WINDOW_MS)) = postsW ∧
    postsW.min? = some 0 ∧
    (3609000 : ℤ) ≠ 0 + RATE_LIMIT_WINDOW_MS := by
  refine ⟨by decide, by decide, by decide, by decide, by decide⟩

/-- Claim C6 as amended: on quota exhaustion `getRateLimitStatus` reports
limited with `cooldownUntil` equal to the timestamp of the LAST row returned
by the backend query plus the window length — when the rows arrive in
ascending timestamp order this is the latest submission in the window, an
upper bound of every counted submission, not the window start. -/
theorem getRateLimitStatus_quota_retry :
    ∀ (posts : List ℤ) (now : ℤ),
      MAX_POSTS_PER_WINDOW ≤
        (posts.filter (fun ts => decide (ts > now - RATE_LIMIT_WINDOW_MS))).length →
      (getRateLimitStatus posts now).isLimited = true ∧
      (getRateLimitStatus posts now).cooldownUntil =
        some ((posts.filter (fun ts => decide (ts > now - RATE_LIMIT_WINDOW_MS))).getLastD 0 +
          RATE_LIMIT_WINDOW_MS) ∧
      (posts.Pairwise (· ≤ ·) →
        ∀ x ∈ posts.filter (fun ts => decide (ts > now - RATE_LIMIT_WINDOW_MS)),
          x ≤ (posts.filter (fun ts => decide (ts > now - RATE_LIMIT_WINDOW_MS))).getLastD 0) := by
  intro posts now hq
  refine ⟨?_, ?_, ?_⟩
  · unfold getRateLimitStatus
    rw [if_pos hq]
  · unfold getRateLimitStatus
    rw [if_pos hq]
  · intro hsorted x hx
    have hfs : (posts.filter (fun ts => decide (ts > now - RATE_LIMIT_WINDOW_MS))).Pairwise
        (fun a b : ℤ => a ≤ b) := List.Pairwise.filter _ hsorted
    rcases hrows : posts.filter (fun ts => decide (ts > now - RATE_LIMIT_WINDOW_MS)) with _ | ⟨a, t⟩
    · rw [hrows] at hx; simp at hx
    · rw [hrows] at hx hfs
      rw [List.getLastD_cons]
      have hpa := List.pairwise_cons.mp hfs
      have hrec := getLastD_is_max t a hpa.2 hpa.1
      rcases List.mem_cons.mp hx with h | h
      · exact h ▸ hrec.1
      · exact hrec.2 x h

/-- Witness for the amended C6: the quota-exhaustion hypothesis and the
ascending-order hypothesis discharged on the concrete ten-post history,
yielding `cooldownUntil = 9000 + 3600000`. -/
theorem getRateLimitStatus_quota_retry_witness :
    (getRateLimitStatus postsW 10000).isLimited = true ∧
    (getRateLimitStatus postsW 10000).cooldownUntil =
      some ((postsW.filter (fun ts => decide (ts > 10000 - RATE_LIMIT_WINDOW_MS))).getLastD 0 +
        RATE_LIMIT_WINDOW_MS) ∧
    (9000 : ℤ) ∈ postsW.filter (fun ts => decide (ts > 10000 - RATE_LIMIT_WINDOW_MS)) ∧
    (9000 : ℤ) ≤ (postsW.filter (fun ts => decide (ts > 10000 - RATE_LIMIT_WINDOW_MS))).getLastD 0 := by
  have h := getRateLimitStatus_quota_retry postsW 10000 (by decide)
  exact ⟨h.1, h.2.1, by decide, h.2.2 (by decide) 9000 (by decide)⟩

/-- Replacing the first entry matching an id leaves the id sequence of the
collection unchanged. -/
theorem replaceFirstById_map_id (msg : ChatMessage) :
    ∀ prev l, replaceFirstById msg prev = some l →
      l.map ChatMessage.id = prev.map ChatMessage.id := by
  intro prev
  induction prev with
  | nil => intro l h; simp [replaceFirstById] at h
  | cons m ms ih =>
    intro l h
    unfold replaceFirstById at h
    by_cases hm : m.id = msg.id
    · rw [if_pos hm] at h
      obtain rfl := Option.some.injEq .. ▸ h
      simp [hm]
    · rw [if_neg hm] at h
      rcases Option.map_eq_some'.mp h with ⟨l', hl', rfl⟩
      simp [ih l' hl']

/-- `replaceFirstById` reports absence exactly when no entry carries the id. -/
theorem replaceFirstById_none_iff (msg : ChatMessage) (prev : List ChatMessage) :
    replaceFirstById msg prev = none ↔ ∀ m ∈ prev, m.id ≠ msg.id := by
  induction prev with
  | nil => simp [replaceFirstById]
  | cons m ms ih =>
    unfold replaceFirstById
    by_cases hm : m.id = msg.id
    · simp [hm]
    · simp [hm, ih]

/-- Claim C4: every realtime merge preserves the no-duplicate-ids invariant
of the canonical collection; a top-level Insert/Update whose id is absent
prepends the message, one whose id is present rewrites the matching entry in
place leaving the id sequence unchanged; hence an optimistic insert followed
by the echoed Insert with the same id leaves exactly one entry with that id. -/
theorem mergeRealtimeEvent_dedup :
    (∀ selfId prev ev, (prev.map ChatMessage.id).Nodup →
       ((mergeRealtimeEvent selfId prev ev).map ChatMessage.id).Nodup) ∧
    (∀ selfId prev msg, msg.parentId = none → (∀ m ∈ prev, m.id ≠ msg.id) →
       mergeRealtimeEvent selfId prev (.insert msg) = msg :: prev) ∧
    (∀ selfId prev msg, msg.parentId = none → msg.id ∈ prev.map ChatMessage.id →
       (mergeRealtimeEvent selfId prev (.insert msg)).map ChatMessage.id =
         prev.map ChatMessage.id) ∧
    (∀ selfId prev newMsg echo, newMsg.parentId = none → echo.parentId = none →
       echo.id = newMsg.id → (∀ m ∈ prev, m.id ≠ newMsg.id) →
       ((mergeRealtimeEvent selfId (optimisticInsert newMsg prev) (.insert echo)).countP
          (fun m => m.id == newMsg.id)) = 1) := by
  have hupsert : ∀ selfId prev (msg : ChatMessage), msg.parentId = none →
      (prev.map ChatMessage.id).Nodup →
      ((mergeRealtimeEvent selfId prev (.insert msg)).map ChatMessage.id).Nodup ∧
      ((mergeRealtimeEvent selfId prev (.update msg)).map ChatMessage.id).Nodup := by
    intro selfId prev msg hpid hnd
    have core : ((match replaceFirstById msg prev with
        | some updated => updated
        | none => msg :: prev : List ChatMessage)).map ChatMessage.id |>.Nodup := by
      rcases hrep : replaceFirstById msg prev with _ | updated
      · have habs := (replaceFirstById_none_iff msg prev).mp hrep
        simp only [List.map_cons, List.nodup_cons]
        refine ⟨?_, hnd⟩
        simp only [List.mem_map, not_exists, not_and]
        intro m hm
        exact fun he => habs m hm (he ▸ rfl)
      · rw [replaceFirstById_map_id msg prev updated hrep]
        exact hnd
    constructor <;> (simp only [mergeRealtimeEvent]; rw [hpid]; exact core)
  refine ⟨?_, ?_, ?_, ?_⟩
  · intro selfId prev ev hnd
    match ev with
    | .delete id =>
      simp only [mergeRealtimeEvent]
      exact hnd.sublist (List.Sublist.map _ (List.filter_sublist prev))
    | .insert msg | .update msg =>
      rcases hpid : msg.parentId with _ | pid
      · exact (hupsert selfId prev msg hpid hnd).1
      · simp only [mergeRealtimeEvent]
        rw [hpid]
        split_ifs
        · exact hnd
        · have hids : (prev.map (fun m =>
              if m.id = pid then { m with replyCount := m.replyCount + 1 } else m)).map
                ChatMessage.id = prev.map ChatMessage.id := by
            rw [List.map_map]
            refine List.map_congr_left ?_
            intro m _
            by_cases hm : m.id = pid <;> simp [hm]
          rw [hids]
          exact hnd
  · intro selfId prev msg hpid habs
    simp only [mergeRealtimeEvent]
    rw [hpid, (replaceFirstById_none_iff msg prev).mpr habs]
  · intro selfId prev msg hpid hmem
    simp only [mergeRealtimeEvent]
    rw [hpid]
    rcases hrep : replaceFirstById msg prev with _ | updated
    · exfalso
      have habs := (replaceFirstById_none_iff msg prev).mp hrep
      rcases List.mem_map.mp hmem with ⟨m, hm, he⟩
      exact habs m hm he
    · exact replaceFirstById_map_id msg prev updated hrep
  · intro selfId prev newMsg echo hp1 hp2 hid habs
    simp only [optimisticInsert, mergeRealtimeEvent]
    rw [hp2]
    have hrep : replaceFirstById echo (newMsg :: prev) = some (echo :: prev) := by
      unfold replaceFirstById
      rw [if_pos (hid ▸ rfl)]
    rw [hrep]
    rw [List.countP_cons]
    have h0 : prev.countP (fun m => m.id == newMsg.id) = 0 := by
      rw [List.countP_eq_zero]
      intro m hm
      simpa using habs m hm
    simp [h0, hid]

/-- Witness for C4: merging the echoed insert of the concrete message
`wMsgA` into the collection holding its own optimistic insert leaves exactly
one entry with its id. -/
theorem mergeRealtimeEvent_dedup_witness :
    ((mergeRealtimeEvent "me" (optimisticInsert wMsgA []) (.insert wMsgA)).countP
       (fun m => m.id == wMsgA.id)) = 1 :=
  mergeRealtimeEvent_dedup.2.2.2 "me" [] wMsgA wMsgA rfl rfl rfl (by simp)

/-- Inserting an element into a list with the stable-sort step permutes the
element onto the list. -/
theorem jsSortInsert_perm {α : Type} (c : α → ℕ) (x : α) :
    ∀ l : List α, (jsSortInsert c x l).Perm (x :: l) := by
  intro l
  induction l with
  | nil => simp [jsSortInsert]
  | cons y ys ih =>
    unfold jsSortInsert
    split_ifs with h
    · exact List.Perm.refl _
    · exact (List.Perm.cons y ih).trans (List.Perm.swap x y ys)

/-- The stable sort by descending count is a permutation of its input. -/
theorem jsSortByCountDesc_perm {α : Type} (c : α → ℕ) :
    ∀ l : List α, (jsSortByCountDesc c l).Perm l := by
  intro l
  induction l with
  | nil => exact List.Perm.refl _
  | cons x xs ih =>
    exact (jsSortInsert_perm c x _).trans (ih.cons x)

/-- The stable-sort insertion step keeps the list sorted by descending
count. -/
theorem jsSortInsert_pairwise {α : Type} (c : α → ℕ) (x : α) :
    ∀ l : List α, l.Pairwise (fun a b => c b ≤ c a) →
      (jsSortInsert c x l).Pairwise (fun a b => c b ≤ c a) := by
  intro l
  induction l with
  | nil => intro _; simp [jsSortInsert]
  | cons y ys ih =>
    intro hp
    have hpc := List.pairwise_cons.mp hp
    unfold jsSortInsert
    split_ifs with h
    · refine List.pairwise_cons.mpr ⟨?_, hp⟩
      intro z hz
      rcases List.mem_cons.mp hz with rfl | hz2
      · exact h
      · exact le_trans (hpc.1 z hz2) h
    · refine List.pairwise_cons.mpr ⟨?_, ih hpc.2⟩
      intro z hz
      have hz2 := (jsSortInsert_perm c x ys).mem_iff.mp hz
      rcases List.mem_cons.mp hz2 with rfl | hz3
      · exact le_of_not_le h
      · exact hpc.1 z hz3

/-- The stable sort produces a list sorted by descending count. -/
theorem jsSortByCountDesc_pairwise {α : Type} (c : α → ℕ) :
    ∀ l : List α, (jsSortByCountDesc c l).Pairwise (fun a b => c b ≤ c a) := by
  intro l
  induction l with
  | nil => simp [jsSortByCountDesc]
  | cons x xs ih => exact jsSortInsert_pairwise c x _ ih

/-- Stability of the insertion step: restricted to any one count value, the
inserted list reads the same as consing the element in front. -/
theorem jsSortInsert_filter {α : Type} (c : α → ℕ) (x : α) (n : ℕ) :
    ∀ l : List α,
      (jsSortInsert c x l).filter (fun a => c a == n) =
        (x :: l).filter (fun a => c a == n) := by
  intro l
  induction l with
  | nil => simp [jsSortInsert]
  | cons y ys ih =>
    unfold jsSortInsert
    split_ifs with h
    · rfl
    · have hxy : c x < c y := Nat.lt_of_not_le h
      by_cases hy : (c y == n) = true
      · have hx : (c x == n) = false := by
          rw [beq_iff_eq] at hy
          simp only [beq_eq_false_iff_ne]
          omega
        simp [List.filter_cons, hy, hx, ih]
      · have hy2 : (c y == n) = false := by simpa using hy
        simp [List.filter_cons, hy2, ih]

/-- Stability of the sort: restricted to any one count value, the sorted
list reads exactly as the unsorted list — equal-count elements keep their
original relative order. -/
theorem jsSortByCountDesc_filter {α : Type} (c : α → ℕ) (n : ℕ) :
    ∀ l : List α,
      (jsSortByCountDesc c l).filter (fun a => c a == n) =
        l.filter (fun a => c a == n) := by
  intro l
  induction l with
  | nil => rfl
  | cons x xs ih =>
    show (jsSortInsert c x (jsSortByCountDesc c xs)).filter _ = _
    rw [jsSortInsert_filter]
    simp [List.filter_cons, ih]

/-- A permutation of lists induces a permutation of their flattenings under
`flatMap`. -/
theorem perm_flatMap {α β : Type} (f : α → List β) {l₁ l₂ : List α}
    (h : l₁.Perm l₂) : (l₁.flatMap f).Perm (l₂.flatMap f) := by
  rw [List.flatMap_def, List.flatMap_def]
  exact (h.map f).flatten

/-- One hexagon upsert adds exactly the pushed message to the multiset of all
bucketed messages. -/
theorem hexUpsert_flat_perm (bnd : String → List (ℚ × ℚ)) (ctr : String → ℚ × ℚ)
    (idx : String) (msg : ChatMessage) :
    ∀ acc : List HexagonData,
      ((hexUpsert bnd ctr idx msg acc).flatMap HexagonData.messages).Perm
        (msg :: acc.flatMap HexagonData.messages) := by
  intro acc
  induction acc with
  | nil => simp [hexUpsert]
  | cons b bs ih =>
    unfold hexUpsert
    by_cases hb : b.h3Index = idx
    · rw [if_pos hb]
      show ((b.messages ++ [msg]) ++ bs.flatMap HexagonData.messages).Perm
        (msg :: (b.messages ++ bs.flatMap HexagonData.messages))
      rw [List.append_assoc]
      exact List.perm_middle
    · rw [if_neg hb]
      show (b.messages ++ (hexUpsert bnd ctr idx msg bs).flatMap HexagonData.messages).Perm
        (msg :: (b.messages ++ bs.flatMap HexagonData.messages))
      exact (List.Perm.append_left b.messages ih).trans List.perm_middle

/-- The hexagon bucketing loop accumulates exactly the processed messages. -/
theorem hexBucketsAux_flat_perm (cell : ℚ → ℚ → ℕ → String)
    (bnd : String → List (ℚ × ℚ)) (ctr : String → ℚ × ℚ) (res : ℕ) :
    ∀ (msgs : List ChatMessage) (acc : List HexagonData),
      ((hexBucketsAux cell bnd ctr res msgs acc).flatMap HexagonData.messages).Perm
        (acc.flatMap HexagonData.messages ++ msgs) := by
  intro msgs
  induction msgs with
  | nil => intro acc; simp [hexBucketsAux]
  | cons m ms ih =>
    intro acc
    unfold hexBucketsAux
    refine ((ih _).trans ?_)
    refine (List.Perm.append_right ms (hexUpsert_flat_perm bnd ctr _ m acc)).trans ?_
    simp only [List.cons_append]
    exact (List.perm_middle).symm

/-- The bucket list of the hexagon aggregation holds exactly the input
messages. -/
theorem hexBuckets_flat_perm (cell : ℚ → ℚ → ℕ → String)
    (bnd : String → List (ℚ × ℚ)) (ctr : String → ℚ × ℚ)
    (msgs : List ChatMessage) (res : ℕ) :
    ((hexBuckets cell bnd ctr msgs res).flatMap HexagonData.messages).Perm msgs := by
  simpa [hexBuckets] using hexBucketsAux_flat_perm cell bnd ctr res msgs []

/-- The id sequence after a hexagon upsert: unchanged when the cell is
already present, extended at the end by the new cell otherwise. -/
theorem hexUpsert_map_idx (bnd : String → List (ℚ × ℚ)) (ctr : String → ℚ × ℚ)
    (idx : String) (msg : ChatMessage) :
    ∀ acc : List HexagonData,
      (hexUpsert bnd ctr idx msg acc).map HexagonData.h3Index =
        if idx ∈ acc.map HexagonData.h3Index then acc.map HexagonData.h3Index
        else acc.map HexagonData.h3Index ++ [idx] := by
  intro acc
  induction acc with
  | nil => simp [hexUpsert]
  | cons b bs ih =>
    unfold hexUpsert
    by_cases hb : b.h3Index = idx
    · rw [if_pos hb]
      simp [hb]
    · rw [if_neg hb]
      have hiff : (idx ∈ (b :: bs).map HexagonData.h3Index) ↔
          (idx ∈ bs.map HexagonData.h3Index) := by
        simp only [List.map_cons, List.mem_cons]
        constructor
        · rintro (h | h)
          · exact absurd h.symm hb
          · exact h
        · exact Or.inr
      by_cases hm : idx ∈ bs.map HexagonData.h3Index
      · rw [if_pos (hiff.mpr hm)]
        simp [ih, hm]
      · rw [if_neg (fun h => hm (hiff.mp h))]
        simp [ih, hm]

/-- A hexagon upsert preserves distinctness of the bucket cells. -/
theorem hexUpsert_nodup (bnd : String → List (ℚ × ℚ)) (ctr : String → ℚ × ℚ)
    (idx : String) (msg : ChatMessage) (acc : List HexagonData)
    (h : (acc.map HexagonData.h3Index).Nodup) :
    ((hexUpsert bnd ctr idx msg acc).map HexagonData.h3Index).Nodup := by
  rw [hexUpsert_map_idx]
  split_ifs with hm
  · exact h
  · rw [List.nodup_append]
    exact ⟨h, List.nodup_singleton idx, by simpa [List.disjoint_singleton] using hm⟩

/-- The hexagon bucketing loop keeps bucket cells distinct. -/
theorem hexBucketsAux_nodup (cell : ℚ → ℚ → ℕ → String)
    (bnd : String → List (ℚ × ℚ)) (ctr : String → ℚ × ℚ) (res : ℕ) :
    ∀ (msgs : List ChatMessage) (acc : List HexagonData),
      (acc.map HexagonData.h3Index).Nodup →
      ((hexBucketsAux cell bnd ctr res msgs acc).map HexagonData.h3Index).Nodup := by
  intro msgs
  induction msgs with
  | nil => intro acc h; simpa [hexBucketsAux] using h
  | cons m ms ih =>
    intro acc h
    unfold hexBucketsAux
    exact ih _ (hexUpsert_nodup bnd ctr _ m acc h)

/-- The running maximum starts no lower than its initial value. -/
theorem latestFold_ge_init :
    ∀ (l : List ChatMessage) (a b : ℤ), a ≤ b →
      a ≤ l.foldl (fun acc m => if m.timestamp > acc then m.timestamp else acc) b := by
  intro l
  induction l with
  | nil => intro a b h; simpa using h
  | cons m ms ih =>
    intro a b h
    simp only [List.foldl_cons]
    refine ih a _ ?_
    split_ifs with hc <;> omega

/-- The running maximum dominates every processed timestamp. -/
theorem latestFold_ge_mem :
    ∀ (l : List ChatMessage) (b : ℤ) (m : ChatMessage), m ∈ l →
      m.timestamp ≤ l.foldl (fun acc m => if m.timestamp > acc then m.timestamp else acc) b := by
  intro l
  induction l with
  | nil => intro b m h; simp at h
  | cons x xs ih =>
    intro b m hm
    simp only [List.foldl_cons]
    rcases List.mem_cons.mp hm with rfl | hm2
    · refine latestFold_ge_init xs _ _ ?_
      split_ifs with hc <;> omega
    · exact ih _ m hm2

/-- The running maximum is either the initial value or some processed
timestamp. -/
theorem latestFold_mem_or_init :
    ∀ (l : List ChatMessage) (b : ℤ),
      l.foldl (fun acc m => if m.timestamp > acc then m.timestamp else acc) b = b ∨
      ∃ m ∈ l,
        l.foldl (fun acc m => if m.timestamp > acc then m.timestamp else acc) b = m.timestamp := by
  intro l
  induction l with
  | nil => intro b; exact Or.inl rfl
  | cons x xs ih =>
    intro b
    simp only [List.foldl_cons]
    by_cases hc : x.timestamp > b
    · rw [if_pos hc]
      rcases ih x.timestamp with h | ⟨m, hm, h⟩
      · exact Or.inr ⟨x, List.mem_cons_self x xs, h⟩
      · exact Or.inr ⟨m, List.mem_cons_of_mem x hm, h⟩
    · rw [if_neg hc]
      rcases ih b with h | ⟨m, hm, h⟩
      · exact Or.inl h
      · exact Or.inr ⟨m, List.mem_cons_of_mem x hm, h⟩

/-- A hexagon upsert with the pushed message's own cell key preserves the
per-bucket well-formedness of every bucket. -/
theorem hexUpsert_wf (bnd : String → List (ℚ × ℚ)) (ctr : String → ℚ × ℚ)
    (k : ChatMessage → String) (idx : String) (msg : ChatMessage)
    (hk : k msg = idx) :
    ∀ acc : List HexagonData, (∀ b ∈ acc, HexWF k b) →
      ∀ b ∈ hexUpsert bnd ctr idx msg acc, HexWF k b := by
  intro acc
  induction acc with
  | nil =>
    intro _ b hb
    simp only [hexUpsert, List.mem_singleton] at hb
    subst hb
    refine ⟨rfl, by simp, ?_, ?_⟩
    · intro m hm
      rcases List.mem_singleton.mp hm with rfl
      exact hk
    · simp [latestOf]
  | cons c cs ih =>
    intro hwf b hb
    unfold hexUpsert at hb
    by_cases hc : c.h3Index = idx
    · rw [if_pos hc] at hb
      rcases List.mem_cons.mp hb with rfl | hb2
      · have hcwf := hwf c (List.mem_cons_self c cs)
        refine ⟨?_, ?_, ?_, ?_⟩
        · simp [hcwf.1]
        · simp
        · intro m hm
          rcases List.mem_append.mp hm with hm2 | hm2
          · exact hcwf.2.2.1 m hm2
          · rcases List.mem_singleton.mp hm2 with rfl
            exact hk.trans hc.symm
        · show (if msg.timestamp > c.latestTimestamp then msg.timestamp
              else c.latestTimestamp) = latestOf (c.messages ++ [msg])
          rw [hcwf.2.2.2]
          simp [latestOf, List.foldl_append]
      · exact hwf b (List.mem_cons_of_mem c hb2)
    · rw [if_neg hc] at hb
      rcases List.mem_cons.mp hb with rfl | hb2
      · exact hwf b (List.mem_cons_self b cs)
      · exact ih (fun d hd => hwf d (List.mem_cons_of_mem c hd)) b hb2

/-- The hexagon bucketing loop preserves per-bucket well-formedness. -/
theorem hexBucketsAux_wf (cell : ℚ → ℚ → ℕ → String)
    (bnd : String → List (ℚ × ℚ)) (ctr : String → ℚ × ℚ) (res : ℕ) :
    ∀ (msgs : List ChatMessage) (acc : List HexagonData),
      (∀ b ∈ acc, HexWF (fun m => cell m.location.lat m.location.lng res) b) →
      ∀ b ∈ hexBucketsAux cell bnd ctr res msgs acc,
        HexWF (fun m => cell m.location.lat m.location.lng res) b := by
  intro msgs
  induction msgs with
  | nil => intro acc h; simpa [hexBucketsAux] using h
  | cons m ms ih =>
    intro acc h
    unfold hexBucketsAux
    exact ih _ (hexUpsert_wf bnd ctr _ _ m rfl acc h)

/-- One district upsert adds exactly the pushed message to the multiset of
all bucketed messages. -/
theorem districtUpsert_flat_perm (key : ℚ × ℚ) (msg : ChatMessage) :
    ∀ acc : List HubData,
      ((districtUpsert key msg acc).flatMap HubData.messages).Perm
        (msg :: acc.flatMap HubData.messages) := by
  intro acc
  induction acc with
  | nil => simp [districtUpsert]
  | cons b bs ih =>
    unfold districtUpsert
    by_cases hb : b.id = key
    · rw [if_pos hb]
      show ((b.messages ++ [msg]) ++ bs.flatMap HubData.messages).Perm
        (msg :: (b.messages ++ bs.flatMap HubData.messages))
      rw [List.append_assoc]
      exact List.perm_middle
    · rw [if_neg hb]
      show (b.messages ++ (districtUpsert key msg bs).flatMap HubData.messages).Perm
        (msg :: (b.messages ++ bs.flatMap HubData.messages))
      exact (List.Perm.append_left b.messages ih).trans List.perm_middle

/-- The district bucketing loop accumulates exactly the processed messages. -/
theorem districtBucketsAux_flat_perm :
    ∀ (msgs : List ChatMessage) (acc : List HubData),
      ((districtBucketsAux msgs acc).flatMap HubData.messages).Perm
        (acc.flatMap HubData.messages ++ msgs) := by
  intro msgs
  induction msgs with
  | nil => intro acc; simp [districtBucketsAux]
  | cons m ms ih =>
    intro acc
    unfold districtBucketsAux
    refine (ih _).trans ?_
    refine (List.Perm.append_right ms (districtUpsert_flat_perm _ m acc)).trans ?_
    simp only [List.cons_append]
    exact List.perm_middle.symm

/-- The bucket list of the district aggregation holds exactly the input
messages. -/
theorem districtBuckets_flat_perm (msgs : List ChatMessage) :
    ((districtBuckets msgs).flatMap HubData.messages).Perm msgs := by
  simpa [districtBuckets] using districtBucketsAux_flat_perm msgs []

/-- The grid-key sequence after a district upsert: unchanged when the key is
already present, extended at the end by the new key otherwise. -/
theorem districtUpsert_map_key (key : ℚ × ℚ) (msg : ChatMessage) :
    ∀ acc : List HubData,
      (districtUpsert key msg acc).map HubData.id =
        if key ∈ acc.map HubData.id then acc.map HubData.id
        else acc.map HubData.id ++ [key] := by
  intro acc
  induction acc with
  | nil => simp [districtUpsert]
  | cons b bs ih =>
    unfold districtUpsert
    by_cases hb : b.id = key
    · rw [if_pos hb]
      simp [hb]
    · rw [if_neg hb]
      have hiff : (key ∈ (b :: bs).map HubData.id) ↔ (key ∈ bs.map HubData.id) := by
        simp only [List.map_cons, List.mem_cons]
        constructor
        · rintro (h | h)
          · exact absurd h.symm hb
          · exact h
        · exact Or.inr
      by_cases hm : key ∈ bs.map HubData.id
      · rw [if_pos (hiff.mpr hm)]
        simp [ih, hm]
      · rw [if_neg (fun h => hm (hiff.mp h))]
        simp [ih, hm]

/-- A district upsert preserves distinctness of the bucket grid keys. -/
theorem districtUpsert_nodup (key : ℚ × ℚ) (msg : ChatMessage)
    (acc : List HubData) (h : (acc.map HubData.id).Nodup) :
    ((districtUpsert key msg acc).map HubData.id).Nodup := by
  rw [districtUpsert_map_key]
  split_ifs with hm
  · exact h
  · rw [List.nodup_append]
    exact ⟨h, List.nodup_singleton key, by simpa [List.disjoint_singleton] using hm⟩

/-- The district bucketing loop keeps bucket grid keys distinct. -/
theorem districtBucketsAux_nodup :
    ∀ (msgs : List ChatMessage) (acc : List HubData),
      (acc.map HubData.id).Nodup →
      ((districtBucketsAux msgs acc).map HubData.id).Nodup := by
  intro msgs
  induction msgs with
  | nil => intro acc h; simpa [districtBucketsAux] using h
  | cons m ms ih =>
    intro acc h
    unfold districtBucketsAux
    exact ih _ (districtUpsert_nodup _ m acc h)

/-- A district upsert with the pushed message's own snapped grid key
preserves the per-bucket well-formedness of every bucket. -/
theorem districtUpsert_wf (key : ℚ × ℚ) (msg : ChatMessage)
    (hk : (snapCoord msg.location.lat, snapCoord msg.location.lng) = key) :
    ∀ acc : List HubData, (∀ b ∈ acc, DistrictWF b) →
      ∀ b ∈ districtUpsert key msg acc, DistrictWF b := by
  intro acc
  induction acc with
  | nil =>
    intro _ b hb
    simp only [districtUpsert, List.mem_singleton] at hb
    subst hb
    refine ⟨rfl, by simp, ?_, rfl, rfl⟩
    intro m hm
    rcases List.mem_singleton.mp hm with rfl
    exact hk
  | cons c cs ih =>
    intro hwf b hb
    unfold districtUpsert at hb
    by_cases hc : c.id = key
    · rw [if_pos hc] at hb
      rcases List.mem_cons.mp hb with rfl | hb2
      · have hcwf := hwf c (List.mem_cons_self c cs)
        refine ⟨by simp [hcwf.1], by simp, ?_, hcwf.2.2.2.1, hcwf.2.2.2.2⟩
        intro m hm
        rcases List.mem_append.mp hm with hm2 | hm2
        · exact hcwf.2.2.1 m hm2
        · rcases List.mem_singleton.mp hm2 with rfl
          exact hk.trans hc.symm
      · exact hwf b (List.mem_cons_of_mem c hb2)
    · rw [if_neg hc] at hb
      rcases List.mem_cons.mp hb with rfl | hb2
      · exact hwf b (List.mem_cons_self b cs)
      · exact ih (fun d hd => hwf d (List.mem_cons_of_mem c hd)) b hb2

/-- The district bucketing loop preserves per-bucket well-formedness. -/
theorem districtBucketsAux_wf :
    ∀ (msgs : List ChatMessage) (acc : List HubData),
      (∀ b ∈ acc, DistrictWF b) →
      ∀ b ∈ districtBucketsAux msgs acc, DistrictWF b := by
  intro msgs
  induction msgs with
  | nil => intro acc h; simpa [districtBucketsAux] using h
  | cons m ms ih =>
    intro acc h
    unfold districtBucketsAux
    exact ih _ (districtUpsert_wf _ m rfl acc h)

/-- Snapping the coordinate 0 to the 0.01-degree grid gives 0. -/
theorem snapCoord_zero : snapCoord 0 = 0 := by
  unfold snapCoord jsRound
  norm_num

/-- Snapping the coordinate 1 to the 0.01-degree grid gives 1. -/
theorem snapCoord_one : snapCoord 1 = 1 := by
  unfold snapCoord jsRound
  norm_num

/-- Evaluation of the district aggregation on the single message `wMsgA`. -/
theorem districtAggA_eval : aggregateMessagesByDistrict [wMsgA] = [wHub] := by
  simp [aggregateMessagesByDistrict, districtBuckets, districtBucketsAux,
    districtUpsert, jsSortByCountDesc, jsSortInsert, wMsgA, wHub, snapCoord_zero]

/-- Evaluation of the hexagon aggregation on the single message `wMsgB`
under a constant cell function. -/
theorem hexAggB_eval :
    aggregateMessagesByHexagon (fun _ _ _ => "cell") (fun _ => []) (fun _ => (0, 0))
      [wMsgB] 5 = [wHex] := by
  simp [aggregateMessagesByHexagon, hexBuckets, hexBucketsAux, hexUpsert,
    jsSortByCountDesc, jsSortInsert, wMsgB, wHex]

/-- Counterexample to C7 as stated: the district aggregation of a single
message with timestamp 1 yields one cluster whose `latestTimestamp` is 0,
not the maximum member timestamp 1 (the district loop never updates the
field). -/
theorem aggregate_partition_cex :
    (aggregateMessagesByDistrict [wMsgA]).map HubData.latestTimestamp = [0] ∧
    (aggregateMessagesByDistrict [wMsgA]).map
      (fun b => b.messages.map ChatMessage.timestamp) = [[1]] ∧
    (0 : ℤ) ≠ 1 := by
  rw [districtAggA_eval]
  refine ⟨by simp [wHub], by simp [wHub, wMsgA], by norm_num⟩

/-- Claim C7 as amended: both aggregations map the empty list to the empty
cluster list and partition their input — the clusters' member lists jointly
hold exactly the input messages, cluster cells are pairwise distinct, each
cluster is nonempty with `count` equal to its member count, and every member
lies in its cluster's cell.  The hexagon aggregation's `latestTimestamp` is
the maximum member timestamp (timestamps being nonnegative), while the
district aggregation leaves `latestTimestamp` at its initial 0. -/
theorem aggregate_partition :
    ∀ (cell : ℚ → ℚ → ℕ → String) (bnd : String → List (ℚ × ℚ))
      (ctr : String → ℚ × ℚ) (msgs : List ChatMessage) (res : ℕ),
      aggregateMessagesByHexagon cell bnd ctr [] res = [] ∧
      ((aggregateMessagesByHexagon cell bnd ctr msgs res).flatMap
        HexagonData.messages).Perm msgs ∧
      ((aggregateMessagesByHexagon cell bnd ctr msgs res).map
        HexagonData.h3Index).Nodup ∧
      (∀ b ∈ aggregateMessagesByHexagon cell bnd ctr msgs res,
        b.count = b.messages.length ∧ b.messages ≠ [] ∧
        ∀ m ∈ b.messages, cell m.location.lat m.location.lng res = b.h3Index) ∧
      ((∀ m ∈ msgs, 0 ≤ m.timestamp) →
        ∀ b ∈ aggregateMessagesByHexagon cell bnd ctr msgs res,
          (∀ m ∈ b.messages, m.timestamp ≤ b.latestTimestamp) ∧
          b.latestTimestamp ∈ b.messages.map ChatMessage.timestamp) ∧
      aggregateMessagesByDistrict [] = [] ∧
      ((aggregateMessagesByDistrict msgs).flatMap HubData.messages).Perm msgs ∧
      ((aggregateMessagesByDistrict msgs).map HubData.id).Nodup ∧
      (∀ b ∈ aggregateMessagesByDistrict msgs,
        b.count = b.messages.length ∧ b.messages ≠ [] ∧ b.latestTimestamp = 0) := by
  intro cell bnd ctr msgs res
  have hsort : (aggregateMessagesByHexagon cell bnd ctr msgs res).Perm
      (hexBuckets cell bnd ctr msgs res) :=
    jsSortByCountDesc_perm HexagonData.count (hexBuckets cell bnd ctr msgs res)
  have hflat : ((aggregateMessagesByHexagon cell bnd ctr msgs res).flatMap
      HexagonData.messages).Perm msgs :=
    (perm_flatMap HexagonData.messages hsort).trans
      (hexBuckets_flat_perm cell bnd ctr msgs res)
  have hwf := hexBucketsAux_wf cell bnd ctr res msgs [] (by simp)
  have hmem : ∀ b ∈ aggregateMessagesByHexagon cell bnd ctr msgs res,
      b ∈ hexBucketsAux cell bnd ctr res msgs [] :=
    fun b hb => hsort.mem_iff.mp hb
  have hdsort : (aggregateMessagesByDistrict msgs).Perm (districtBuckets msgs) :=
    jsSortByCountDesc_perm HubData.count (districtBuckets msgs)
  have hdwf := districtBucketsAux_wf msgs [] (by simp)
  have hdmem : ∀ b ∈ aggregateMessagesByDistrict msgs, b ∈ districtBucketsAux msgs [] :=
    fun b hb => hdsort.mem_iff.mp hb
  refine ⟨rfl, hflat, ?_, ?_, ?_, rfl, ?_, ?_, ?_⟩
  · exact (List.Perm.nodup_iff (hsort.map HexagonData.h3Index)).mpr
      (hexBucketsAux_nodup cell bnd ctr res msgs [] (by simp))
  · intro b hb
    have h := hwf b (hmem b hb)
    exact ⟨h.1, h.2.1, h.2.2.1⟩
  · intro hts b hb
    have h := hwf b (hmem b hb)
    have hsub : ∀ m ∈ b.messages, m ∈ msgs := by
      intro m hm
      exact hflat.mem_iff.mp (List.mem_flatMap.mpr ⟨b, hb, hm⟩)
    constructor
    · intro m hm
      rw [h.2.2.2]
      exact latestFold_ge_mem b.messages 0 m hm
    · rcases latestFold_mem_or_init b.messages 0 with h0 | ⟨m, hm, he⟩
      · rcases hml : b.messages with _ | ⟨hd, tl⟩
        · exact absurd hml h.2.1
        · have hge : hd.timestamp ≤ latestOf b.messages :=
            latestFold_ge_mem b.messages 0 hd (by rw [hml]; exact List.mem_cons_self hd tl)
          have hle : 0 ≤ hd.timestamp :=
            hts hd (hsub hd (by rw [hml]; exact List.mem_cons_self hd tl))
          have hzero : latestOf b.messages = 0 := h0
          have : b.latestTimestamp = hd.timestamp := by
            rw [h.2.2.2, hzero]
            omega
          rw [this]
          exact List.mem_map.mpr ⟨hd, by simp [hml], rfl⟩
      · rw [h.2.2.2]
        exact List.mem_map.mpr ⟨m, hm, he.symm⟩
  · exact (perm_flatMap HubData.messages hdsort).trans (districtBuckets_flat_perm msgs)
  · exact (List.Perm.nodup_iff (hdsort.map HubData.id)).mpr
      (districtBucketsAux_nodup msgs [] (by simp))
  · intro b hb
    have h := hdwf b (hdmem b hb)
    exact ⟨h.1, h.2.1, h.2.2.2.2⟩

/-- Witness for the amended C7: aggregating the single message `wMsgB`
(timestamp 2, nonnegative) under a constant cell function yields the cluster
`wHex`, whose `latestTimestamp` is a member timestamp and whose count
matches its member list. -/
theorem aggregate_partition_witness :
    wHex.latestTimestamp ∈ wHex.messages.map ChatMessage.timestamp ∧
    wHex.count = wHex.messages.length := by
  obtain ⟨h1, h2, h3, h4, h5, h6, h7, h8, h9⟩ :=
    aggregate_partition (fun _ _ _ => "cell") (fun _ => []) (fun _ => (0, 0)) [wMsgB] 5
  have hts : ∀ m ∈ [wMsgB], (0 : ℤ) ≤ m.timestamp := by
    intro m hm
    rcases List.mem_singleton.mp hm with rfl
    norm_num [wMsgB]
  have hmem : wHex ∈ aggregateMessagesByHexagon (fun _ _ _ => "cell") (fun _ => [])
      (fun _ => (0, 0)) [wMsgB] 5 := by
    rw [hexAggB_eval]
    exact List.mem_singleton.mpr rfl
  exact ⟨(h5 hts wHex hmem).2, (h4 wHex hmem).1⟩

/-- Counterexample to C9 as stated: two equal-count district clusters come
out in the first-appearance order of their cells, not in cellId order — the
same pair of messages in the two input orders yields the two opposite output
orders. -/
theorem aggregate_sorted_cex :
    (aggregateMessagesByDistrict [wMsgB, wMsgA]).map HubData.id = [(1, 1), (0, 0)] ∧
    (aggregateMessagesByDistrict [wMsgA, wMsgB]).map HubData.id = [(0, 0), (1, 1)] ∧
    (aggregateMessagesByDistrict [wMsgB, wMsgA]).map HubData.count = [1, 1] := by
  refine ⟨?_, ?_, ?_⟩ <;>
    simp [aggregateMessagesByDistrict, districtBuckets, districtBucketsAux,
      districtUpsert, jsSortByCountDesc, jsSortInsert, wMsgA, wMsgB,
      snapCoord_zero, snapCoord_one]

/-- Claim C9 as amended: both aggregations return their clusters sorted by
descending count, and the sort is stable — restricted to any one count
value, the output order equals the bucket-creation (first-appearance) order,
so equal-count clusters are ordered by input position, not by cellId. -/
theorem aggregate_sorted :
    ∀ (cell : ℚ → ℚ → ℕ → String) (bnd : String → List (ℚ × ℚ))
      (ctr : String → ℚ × ℚ) (msgs : List ChatMessage) (res : ℕ),
      (aggregateMessagesByHexagon cell bnd ctr msgs res).Pairwise
        (fun a b => b.count ≤ a.count) ∧
      (∀ n : ℕ,
        (aggregateMessagesByHexagon cell bnd ctr msgs res).filter
          (fun b => b.count == n) =
        (hexBuckets cell bnd ctr msgs res).filter (fun b => b.count == n)) ∧
      (aggregateMessagesByDistrict msgs).Pairwise (fun a b => b.count ≤ a.count) ∧
      (∀ n : ℕ,
        (aggregateMessagesByDistrict msgs).filter (fun b => b.count == n) =
          (districtBuckets msgs).filter (fun b => b.count == n)) := by
  intro cell bnd ctr msgs res
  exact ⟨jsSortByCountDesc_pairwise HexagonData.count _,
    fun n => jsSortByCountDesc_filter HexagonData.count n _,
    jsSortByCountDesc_pairwise HubData.count _,
    fun n => jsSortByCountDesc_filter HubData.count n _⟩

/-- Claim C10: every district cluster's center is the 0.01-degree grid point
to which each of its members snaps (`Math.round(coord * 100) / 100`), the
center always lies on the grid, and the center can only coincide with a
member's raw coordinate when that coordinate itself lies on the grid. -/
theorem district_snap_center :
    ∀ msgs : List ChatMessage, ∀ b ∈ aggregateMessagesByDistrict msgs,
      ∀ m ∈ b.messages,
        b.center.lat = snapCoord m.location.lat ∧
        b.center.lng = snapCoord m.location.lng ∧
        (∃ n : ℤ, b.center.lat = (n : ℚ) / 100) ∧
        (∃ n : ℤ, b.center.lng = (n : ℚ) / 100) ∧
        (b.center.lat = m.location.lat → ∃ n : ℤ, m.location.lat = (n : ℚ) / 100) ∧
        (b.center.lng = m.location.lng → ∃ n : ℤ, m.location.lng = (n : ℚ) / 100) := by
  intro msgs b hb m hm
  have hwf := districtBucketsAux_wf msgs [] (by simp) b
    ((jsSortByCountDesc_perm HubData.count (districtBuckets msgs)).mem_iff.mp hb)
  have hid := hwf.2.2.1 m hm
  have hclat : b.center.lat = snapCoord m.location.lat := by
    rw [hwf.2.2.2.1, ← hid]
  have hclng : b.center.lng = snapCoord m.location.lng := by
    rw [hwf.2.2.2.1, ← hid]
  have hglat : ∃ n : ℤ, b.center.lat = (n : ℚ) / 100 :=
    ⟨jsRound (m.location.lat * 100), by rw [hclat]; rfl⟩
  have hglng : ∃ n : ℤ, b.center.lng = (n : ℚ) / 100 :=
    ⟨jsRound (m.location.lng * 100), by rw [hclng]; rfl⟩
  refine ⟨hclat, hclng, hglat, hglng, ?_, ?_⟩
  · intro he
    rcases hglat with ⟨n, hn⟩
    exact ⟨n, he ▸ hn⟩
  · intro he
    rcases hglng with ⟨n, hn⟩
    exact ⟨n, he ▸ hn⟩

/-- Witness for C10: in the concrete aggregation of `wMsgA` the cluster's
center coordinate equals the snap of the member's coordinate and lies on the
0.01-degree grid. -/
theorem district_snap_center_witness :
    wHub.center.lat = snapCoord wMsgA.location.lat ∧
    (∃ n : ℤ, wHub.center.lat = (n : ℚ) / 100) := by
  have hmem : wHub ∈ aggregateMessagesByDistrict [wMsgA] := by
    rw [districtAggA_eval]
    exact List.mem_singleton.mpr rfl
  have hA : wMsgA ∈ wHub.messages := by simp [wHub]
  have h := district_snap_center [wMsgA] wHub hmem wMsgA hA
  exact ⟨h.1, h.2.2.1⟩

end Kaiku
